import Mathlib

/-
Verification of the MarkovTool repository core: a shallow embedding of
src/MarkovTool/stat.py (Collector), src/MarkovTool/description.py
(Description / Stochastic) and src/MarkovTool/instance.py (Instance /
Endless), with theorems settling the specification claims.

Python-specific conventions used throughout:
* Python dicts preserve insertion order; they are embedded as association
  lists, with `setdefault` appending a missing key at the end.
* Python objects aliased by several containers (ChunkRaw / ChunkRef objects
  shared between tapes) are embedded as addresses into a growing store
  (`Collector.store`); in-place mutation is `List.set` at an address.
* A raised Python exception is `Except.error` with the exception name.
* Python list indexing `xs[i]` (negative wrap, IndexError) is `pyGet`;
  slicing `xs[l:r]` (clamping) is `pySlice`.
* `numpy` float draws and cumulative sums are embedded as rationals.
-/

/-- Python list indexing `xs[i]`: a negative index counts from the end,
an out-of-range index raises IndexError. -/
def pyGet {α : Type} (xs : List α) (i : Int) : Except String α :=
  let j : Int := if i < 0 then i + xs.length else i
  if j < 0 then .error "IndexError"
  else
    match xs[j.toNat]? with
    | some v => .ok v
    | none => .error "IndexError"

/-- Normalize one bound of a Python slice `xs[l:r]` for a list of length n. -/
def pySliceIdx (n : Nat) (i : Int) : Nat :=
  if i < 0 then (i + n).toNat else min i.toNat n

/-- Python list slicing `xs[l:r]` with unit step: bounds are clamped,
never raising. -/
def pySlice {α : Type} (xs : List α) (l r : Int) : List α :=
  let a := pySliceIdx xs.length l
  let b := pySliceIdx xs.length r
  (xs.drop a).take (b - a)

/-- A chunk of a Collector tape (stat.py ChunkRaw / ChunkRef).
`ref` stores the address (`ptr`) of the chunk object it points to,
embedding the Python object reference `point_to`. -/
inductive Chunk : Type where
  | raw (start : Int) (data : List Int)
  | ref (start : Int) (ptr : Nat) (length : Nat)
deriving DecidableEq

/-- Key of `Collector._entries`: the sentinel string key or a
user-supplied backend tag (embedded as a natural number). -/
inductive BKey : Type where
  | empt
  | user (n : Nat)
deriving DecidableEq

/-- CGroup bucket of a Collector: insertion-ordered map from instance id to
its tape, a list of chunk addresses. -/
abbrev CGroup := List (Nat × List Nat)

/-- Lookup in an insertion-ordered association list (Python dict `get`). -/
def alookup {α β : Type} [DecidableEq α] : List (α × β) → α → Option β
  | [], _ => none
  | (k, v) :: rest, key => if k = key then some v else alookup rest key

/-- Write to an insertion-ordered association list (Python dict item
assignment): an existing key keeps its position, a new key is appended. -/
def aset {α β : Type} [DecidableEq α] : List (α × β) → α → β → List (α × β)
  | [], key, v => [(key, v)]
  | (k, v') :: rest, key, v =>
    if k = key then (key, v) :: rest else (k, v') :: aset rest key v

/-- State of stat.py Collector: the store of all chunk objects ever
created (addressed by index), the `_entries` dict and the `_is_open` flag. -/
structure Collector : Type where
  store : List Chunk
  entries : List (BKey × CGroup)
  isOpen : Bool
deriving DecidableEq

/-- A fresh Collector: `_entries` is pre-seeded with the sentinel bucket
and the collector is open. -/
def Collector.empty : Collector :=
  { store := [], entries := [(BKey.empt, [])], isOpen := true }

/-- Normalization of the backend argument done at the top of `put`:
None becomes the sentinel key. -/
def normKey : Option Nat → BKey
  | none => BKey.empt
  | some n => BKey.user n

/-- Inner loop of `Collector._match` over one instance tape: return the
first chunk that is RAW and whose end lies past `step`. The source never
compares the recorded data against the state being put. -/
def matchTape (store : List Chunk) (step : Int) : List Nat → Option Nat
  | [] => none
  | addr :: rest =>
    match store[addr]? with
    | some (Chunk.raw st d) =>
      if st + (d.length : Int) > step then some addr else matchTape store step rest
    | _ => matchTape store step rest

/-- `Collector._match`: scan the group in insertion order and return the
first matching raw chunk address together with the owning instance.
The `state` parameter is accepted but, as in the source, never used. -/
def matchGroup (store : List Chunk) (step state : Int) : CGroup → Option (Nat × Nat)
  | [] => none
  | (i, tape) :: rest =>
    match matchTape store step tape with
    | some addr => some (addr, i)
    | none => matchGroup store step state rest

/-- Store-and-tape update of `Collector.put` after the duplicate check,
for the tape found (or freshly created) for the putting instance.
`rawMatch` is the address returned by `_match` (if any); returns the new
store and the instance tape. -/
def Collector.putChunks (store : List Chunk) (tape : List Nat)
    (step state : Int) (rawMatch : Option Nat) : List Chunk × List Nat :=
  match tape.getLast? with
  | none =>
    match rawMatch with
    | some addr => (store ++ [Chunk.ref step addr 1], [store.length])
    | none => (store ++ [Chunk.raw step [state]], [store.length])
  | some lastAddr =>
    match store[lastAddr]?, rawMatch with
    | some (Chunk.ref s p l), some addr =>
      -- `last.point_to is raw_match`: extend in place; otherwise the entry
      -- is silently dropped (the source appends nothing yet returns True)
      if p = addr then (store.set lastAddr (Chunk.ref s p (l + 1)), tape)
      else (store, tape)
    | some (Chunk.raw _ _), some addr =>
      (store ++ [Chunk.ref step addr 1], tape ++ [store.length])
    | some (Chunk.ref _ _ _), none =>
      (store ++ [Chunk.raw step [state]], tape ++ [store.length])
    | some (Chunk.raw st d), none =>
      -- `last.data.append(state)`: in-place growth, no contiguity check
      (store.set lastAddr (Chunk.raw st (d ++ [state])), tape)
    | none, _ => (store, tape)

/-- Tape-update part of `Collector.put`: `tape = group.setdefault(instance, [])`
followed by the chunk logic; the resulting tape is written back into the
group (in the source the tape list is mutated in place). -/
def Collector.putTape (store : List Chunk) (group : CGroup) (inst : Nat)
    (step state : Int) (rawMatch : Option Nat) : List Chunk × CGroup :=
  let group1 := if (alookup group inst).isSome then group else group ++ [(inst, [])]
  let tape := (alookup group1 inst).getD []
  let sn := Collector.putChunks store tape step state rawMatch
  (sn.1, aset group1 inst sn.2)

/-- Body of `Collector.put` after the open check and group lookup. -/
def Collector.putBody (c : Collector) (inst : Nat) (step state : Int)
    (key : BKey) (entries1 : List (BKey × CGroup)) (group : CGroup) :
    Bool × Collector :=
  match matchGroup c.store step state group with
  | some (addr, inst2) =>
    if inst2 = inst then (false, { c with entries := entries1 })
    else
      let sg := Collector.putTape c.store group inst step state (some addr)
      (true, { c with store := sg.1, entries := aset entries1 key sg.2 })
  | none =>
    let sg := Collector.putTape c.store group inst step state none
    (true, { c with store := sg.1, entries := aset entries1 key sg.2 })

/-- `Collector.put`: try to make a new entry; returns the acceptance flag
and the updated collector. -/
def Collector.put (c : Collector) (inst : Nat) (step state : Int)
    (backend : Option Nat) : Bool × Collector :=
  if c.isOpen = false then (false, c)
  else
    let key := normKey backend
    let entries1 :=
      if (alookup c.entries key).isSome then c.entries else c.entries ++ [(key, [])]
    let group := (alookup entries1 key).getD []
    Collector.putBody c inst step state key entries1 group

/-- Copy loop of `Collector.redirect`: reference chunks are appended as the
same object (same address), raw chunks are wrapped in a fresh reference
chunk covering their whole data. -/
def redirectLoop (store : List Chunk) (acc : List Nat) : List Nat → List Chunk × List Nat
  | [] => (store, acc)
  | addr :: rest =>
    match store[addr]? with
    | some (Chunk.ref _ _ _) => redirectLoop store (acc ++ [addr]) rest
    | some (Chunk.raw st d) =>
      redirectLoop (store ++ [Chunk.ref st addr d.length]) (acc ++ [store.length]) rest
    | none => redirectLoop store acc rest

/-- `Collector.redirect`: copy the entries of `src` as emitted by `dst`.
Both backend variables in the source are read from `src`, so the group is
looked up under the raw backend value of `src` (a None backend misses,
since `_entries` only ever holds the sentinel key or user tags), and the
inequality test between the two backends can never fail. -/
def Collector.redirect (c : Collector) (src dst : Nat)
    (srcBackend : Option Nat) : Bool × Collector :=
  let group? : Option (BKey × CGroup) :=
    match srcBackend with
    | none => none
    | some n => (alookup c.entries (BKey.user n)).map (fun g => (BKey.user n, g))
  match group? with
  | none => (false, c)
  | some (key, group) =>
    if group.isEmpty then (false, c)
    else
      match alookup group src with
      | none => (false, c)
      | some srcTape =>
        let group1 :=
          if (alookup group dst).isSome then group else group ++ [(dst, [])]
        let dstTape := (alookup group1 dst).getD []
        let sl := redirectLoop c.store [] srcTape
        (true, { c with store := sl.1,
                        entries := aset c.entries key (aset group1 dst (dstTape ++ sl.2)) })

/-- `Collector.length`: the source looks up the tape but re-checks the
group variable, so a missing tape flows into `tape[-1]` and raises; the
final match repeats the pattern ChunkType.RAW in both arms, so a tape
ending in a reference chunk falls through and yields None. -/
def Collector.length (c : Collector) (instBackend : Option Nat) (inst : Nat) :
    Except String (Option Int) :=
  let key := normKey instBackend
  match alookup c.entries key with
  | none => .ok none
  | some group =>
    if group.isEmpty then .ok none
    else
      match alookup group inst with
      | none => .error "TypeError"
      | some tape =>
        match tape.getLast? with
        | none => .error "IndexError"
        | some lastAddr =>
          match c.store[lastAddr]? with
          | some (Chunk.raw st d) => .ok (some (st + d.length))
          | _ => .ok none

/-- Scan loop of `Collector.retrieve`: a reference chunk is resolved as
`chunk.point_to.data[step - chunk.start]`, with no adjustment by the raw
chunk's own start. -/
def retrieveScan (store : List Chunk) (step : Int) : List Nat → Except String (Option Int)
  | [] => .ok none
  | addr :: rest =>
    match store[addr]? with
    | some (Chunk.raw st d) =>
      if st + (d.length : Int) > step then (pyGet d (step - st)).map some
      else retrieveScan store step rest
    | some (Chunk.ref st p len) =>
      if st + (len : Int) > step then
        match store[p]? with
        | some (Chunk.raw _ d) => (pyGet d (step - st)).map some
        | _ => .ok none
      else retrieveScan store step rest
    | none => retrieveScan store step rest

/-- `Collector.retrieve`: as in `length`, the guard after the tape lookup
re-checks the group, so iterating a missing tape raises. -/
def Collector.retrieve (c : Collector) (instBackend : Option Nat) (inst : Nat)
    (step : Int) : Except String (Option Int) :=
  let key := normKey instBackend
  match alookup c.entries key with
  | none => .ok none
  | some group =>
    if group.isEmpty then .ok none
    else
      match alookup group inst with
      | none => .error "TypeError"
      | some tape => retrieveScan c.store step tape

/-- Chunk-by-chunk yield of `Collector.playback`: raw data is yielded
directly, a reference chunk yields the slice
`raw.data[chunk.start - raw.start : chunk.start - raw.start + chunk.length]`. -/
def playbackChunks (store : List Chunk) : List Nat → List Int
  | [] => []
  | addr :: rest =>
    (match store[addr]? with
     | some (Chunk.raw _ d) => d
     | some (Chunk.ref st p len) =>
       match store[p]? with
       | some (Chunk.raw rawSt d) => pySlice d (st - rawSt) (st - rawSt + len)
       | _ => []
     | none => []) ++ playbackChunks store rest

/-- `Collector.playback` is a Python generator function: its early
`return None` statements merely end the iteration, so the sequence a
caller obtains from `list(playback(instance))` is embedded directly;
a missing group or tape gives the empty sequence. -/
def Collector.playback (c : Collector) (instBackend : Option Nat) (inst : Nat) :
    List Int :=
  let key := normKey instBackend
  match alookup c.entries key with
  | none => []
  | some group =>
    if group.isEmpty then []
    else
      match alookup group inst with
      | none => []
      | some tape => if tape.isEmpty then [] else playbackChunks c.store tape

/-- Total number of steps represented by a tape: data lengths of raw
chunks plus lengths of reference chunks (the quantity named by the
specification for `length`). -/
def tapeTotal (store : List Chunk) : List Nat → Nat
  | [] => 0
  | addr :: rest =>
    (match store[addr]? with
     | some (Chunk.raw _ d) => d.length
     | some (Chunk.ref _ _ len) => len
     | none => 0) + tapeTotal store rest

/-- Mutating operations of a Collector reachable from outside:
`put` and `redirect`. -/
inductive COp : Type where
  | putOp (inst : Nat) (step state : Int) (backend : Option Nat)
  | redirectOp (src dst : Nat) (srcBackend : Option Nat)

/-- Apply one operation, discarding the returned acceptance flag. -/
def Collector.applyOp (c : Collector) : COp → Collector
  | COp.putOp i st sv b => (c.put i st sv b).2
  | COp.redirectOp s d b => (c.redirect s d b).2

/-- Run a sequence of operations on a fresh Collector. -/
def Collector.runOps (ops : List COp) : Collector :=
  ops.foldl Collector.applyOp Collector.empty

-- scratch
/-- State of description.py Description: the identity counter lives
outside the object, so `variant` threads the class counter explicitly. -/
structure Description : Type where
  ident : Nat
  shp : Option (Int × Int)
deriving DecidableEq

/-- Shape property setter of `Description`: raises once a shape is set;
a None value is ignored; both components must be positive. -/
def Description.setShape (d : Description) (value : Option (Int × Int)) :
    Except String Description :=
  if d.shp.isSome then .error "ValueError: Shape may be set only once"
  else
    match value with
    | none => .ok d
    | some (a, b) =>
      if 0 < a ∧ 0 < b then .ok { d with shp := some (a, b) }
      else .error "ValueError: Shape must be tuple of two positive integers"

/-- `Description.variant`: the source copies the receiver into `result`
but then assigns the freshly generated id to `self`, not to `result`;
the keyword overrides are applied to `result` through the property
setters (the only settable base-class property is `shape`).
Returns (result, the receiver after the call, the next id counter). -/
def Description.variant (self : Description) (count : Nat)
    (kwargs : List (Int × Int)) : Except String (Description × Description × Nat) :=
  let result := self
  let self2 := { self with ident := count }
  let count2 := count + 1
  match kwargs.foldlM (fun r v => Description.setShape r (some v)) result with
  | .ok r => .ok (r, self2, count2)
  | .error e => .error e

/-- Initial state of a Stochastic description: a fixed integer or a
probability vector (the ndarray case); the cumulative sums of the vector
are stored separately, as in the source. -/
inductive InitialSt : Type where
  | fixed (n : Int)
  | vec
deriving DecidableEq

/-- Relevant state of description.py Stochastic: the precomputed
cumulative sums used by the picking rules. -/
structure Stochastic : Type where
  matrixCumsum : List (List ℚ)
  initialState : InitialSt
  initialStateCumsum : List ℚ
deriving DecidableEq

/-- Scan loop shared by `Stochastic._initial` and `Stochastic._transition`:
return the first index whose cumulative value exceeds the pick, raising
ValueError when the loop falls through. -/
def cumScan : List ℚ → ℚ → Except String Nat
  | [], _ => .error "ValueError: pick is higher than the last element of accumulated"
  | v :: rest, pick =>
    if pick < v then .ok 0
    else
      match cumScan rest pick with
      | .ok i => .ok (i + 1)
      | .error e => .error e

/-- `Stochastic._initial`: for a vector initial state, inverse-CDF scan of
the precomputed cumulative sums; for a fixed state, return it directly. -/
def Stochastic.initial (m : Stochastic) (pick : ℚ) : Except String Int :=
  match m.initialState with
  | InitialSt.vec => (cumScan m.initialStateCumsum pick).map (fun i => (i : Int))
  | InitialSt.fixed n => .ok n

/-- `Stochastic._transition`: index row `state` of the cumulative matrix
(numpy indexing: negative wrap, IndexError past the end), then scan. -/
def Stochastic.transition (m : Stochastic) (state : Int) (pick : ℚ) :
    Except String Int :=
  match pyGet m.matrixCumsum state with
  | .error e => .error e
  | .ok row => (cumScan row pick).map (fun i => (i : Int))

/-- `Instance._forced_state`: None, an int, or the generator wrapped
around an iterable by the state setter. -/
inductive ForcedSt : Type where
  | noneF
  | fint (v : Int)
  | fgen (vs : List Int)
deriving DecidableEq

/-- Iteration state of an instance.py Endless instance. `rngIdx` is the
position of `_state_rng` in its stream of uniform draws. -/
structure EndlessState : Type where
  state : Option Int
  forced : ForcedSt
  step : Nat
  rngIdx : Nat
deriving DecidableEq

/-- `Instance.state` setter with an iterable argument: the base-class
`_verify_state` wraps it in a generator and stores it in `_forced_state`. -/
def Instance.setStateSeq (s : EndlessState) (vs : List Int) : EndlessState :=
  { s with forced := ForcedSt.fgen vs }

/-- `Instance.__next__` (the collector emission only has external effects
and is omitted): apply a pending forced state, bump the step counter and
return `_state`. A queued generator value is tested with `if not value`,
so the value 0 is treated like exhaustion: the generator is discarded and
the state is left as the subclass assigned it. -/
def Instance.nextState (s : EndlessState) : Option Int × EndlessState :=
  let s1 :=
    match s.forced with
    | ForcedSt.fint v => { s with state := some v, forced := ForcedSt.noneF }
    | ForcedSt.fgen vs =>
      match vs with
      | [] => { s with forced := ForcedSt.noneF }
      | v :: rest =>
        if v = 0 then { s with forced := ForcedSt.noneF }
        else { s with state := some v, forced := ForcedSt.fgen rest }
    | ForcedSt.noneF => s
  (s1.state, { s1 with step := s1.step + 1 })

/-- `Endless.__next__`: on the first step the initial state is sampled
from a fresh unseeded rng (its draw is the parameter `initDraw`); on
later steps `_pick_next_state` always consumes one draw of `_state_rng`
before delegating to `Instance.__next__`, which may then overwrite the
sampled state with a pending forced one. A None prior state indexes the
cumulative matrix with None and raises. -/
def Endless.next (m : Stochastic) (draws : Nat → ℚ) (initDraw : ℚ)
    (s : EndlessState) : Except String (Option Int × EndlessState) :=
  if s.step = 0 then
    match m.initial initDraw with
    | .error e => .error e
    | .ok v => .ok (Instance.nextState { s with state := some v })
  else
    let pick := draws s.rngIdx
    let s0 := { s with rngIdx := s.rngIdx + 1 }
    match s.state with
    | none => .error "TypeError"
    | some st =>
      match m.transition st pick with
      | .error e => .error e
      | .ok v => .ok (Instance.nextState { s0 with state := some v })

/-- Relevant state of an instance.py Instance for `branch`: its identity
and, for each bound collector, whether that collector is open (the set
iteration order does not matter for the branch outcome). -/
structure InstanceObj : Type where
  ident : Nat
  stepCount : Nat
  curState : Option Int
  forced : ForcedSt
  collectorsOpen : List Bool
deriving DecidableEq

/-- `Instance.branch`: shallow-copies the receiver, gives the copy a
fresh id, routes a `state` keyword through the state setter, then calls
`c._redirect(self, new, backend)` on every open bound collector.
stat.py defines `redirect(self, src, dst)` and no attribute named
`_redirect`, so the first open collector raises AttributeError; when all
bound collectors are closed they are unbound after the loop. -/
def InstanceObj.branch (self : InstanceObj) (nextId : Nat)
    (stateKwarg : Option Int) : Except String (InstanceObj × InstanceObj) :=
  let newInst := { self with ident := nextId }
  let newInst :=
    match stateKwarg with
    | some v => { newInst with forced := ForcedSt.fint v }
    | none => newInst
  if self.collectorsOpen.any (fun b => b) then
    .error "AttributeError: Collector object has no attribute _redirect"
  else
    .ok ({ newInst with collectorsOpen := [] },
         { self with collectorsOpen := [] })

/-- Well-formed tape, the structural shape a tape has under contiguous,
in-order recording: each chunk starts where the previous one ended
(beginning at `s`), and each reference chunk targets a raw chunk that
starts at the same step and holds at least `length` states. -/
def WFtape (store : List Chunk) : Int → List Nat → Bool
  | _, [] => true
  | s, addr :: rest =>
    match store[addr]? with
    | some (Chunk.raw st d) =>
      st == s && WFtape store (s + (d.length : Int)) rest
    | some (Chunk.ref st p len) =>
      match store[p]? with
      | some (Chunk.raw rst d) =>
        st == s && rst == s && decide (len ≤ d.length) &&
          WFtape store (s + (len : Int)) rest
      | _ => false
    | none => false

lemma pyGet_of_range {α : Type} (xs : List α) (i : Int) (h0 : 0 ≤ i)
    (_h1 : i < (xs.length : Int)) :
    pyGet xs i = match xs[i.toNat]? with
      | some v => Except.ok v
      | none => Except.error "IndexError" := by
  unfold pyGet
  rw [if_neg (by omega), if_neg (by omega)]

lemma pySlice_zero_len (xs : List Int) (len : Nat) :
    pySlice xs 0 (0 + (len : Int)) = xs.take len := by
  have ha : pySliceIdx xs.length 0 = 0 := by
    unfold pySliceIdx
    rw [if_neg (by omega)]
    simp
  have hb : pySliceIdx xs.length (0 + (len : Int)) = min len xs.length := by
    unfold pySliceIdx
    rw [if_neg (by omega)]
    congr 1
    omega
  simp only [pySlice, ha, hb]
  simp only [List.drop_zero, Nat.sub_zero]
  rw [List.take_eq_take, min_assoc, min_self]

/-- Core correspondence: on a well-formed tape the retrieve scan agrees
with positional lookup in the playback sequence, for every step at or
past the tape origin (out-of-range steps give the None sentinel on both
sides). -/
lemma retrieveScan_wf (store : List Chunk) :
    ∀ (tape : List Nat) (s0 step : Int), WFtape store s0 tape = true → s0 ≤ step →
    retrieveScan store step tape =
      Except.ok ((playbackChunks store tape)[(step - s0).toNat]?) := by
  intro tape
  induction tape with
  | nil => intro s0 step _ _; simp [retrieveScan, playbackChunks]
  | cons addr rest ih =>
    intro s0 step hwf hle
    cases hget : store[addr]? with
    | none => simp [WFtape, hget] at hwf
    | some ch =>
      cases ch with
      | raw st d =>
        simp only [WFtape, hget, Bool.and_eq_true, beq_iff_eq] at hwf
        obtain ⟨hst, hrest⟩ := hwf
        subst hst
        by_cases hcov : st + (d.length : Int) > step
        · simp only [retrieveScan, hget]
          rw [if_pos hcov, pyGet_of_range d (step - st) (by omega) (by omega)]
          simp only [playbackChunks, hget]
          rw [List.getElem?_append_left (by omega : (step - st).toNat < d.length)]
          rw [List.getElem?_eq_getElem (by omega : (step - st).toNat < d.length)]
          rfl
        · simp only [retrieveScan, hget]
          rw [if_neg hcov]
          simp only [playbackChunks, hget]
          rw [List.getElem?_append_right (by omega : d.length ≤ (step - st).toNat)]
          rw [ih (st + (d.length : Int)) step hrest (by omega)]
          congr 2
          omega
      | ref st p len =>
        cases hp : store[p]? with
        | none => simp [WFtape, hget, hp] at hwf
        | some pch =>
          cases pch with
          | ref a b e => simp [WFtape, hget, hp] at hwf
          | raw rst d =>
            simp only [WFtape, hget, hp, Bool.and_eq_true, beq_iff_eq,
              decide_eq_true_eq, and_assoc] at hwf
            obtain ⟨hst, hrst, hlen, hrest⟩ := hwf
            subst hst
            rw [hrst] at hp
            by_cases hcov : st + (len : Int) > step
            · simp only [retrieveScan, hget, hp]
              rw [if_pos hcov, pyGet_of_range d (step - st) (by omega) (by omega)]
              simp only [playbackChunks, hget, hp]
              rw [sub_self, pySlice_zero_len]
              have hlt : (step - st).toNat < len := by omega
              rw [List.getElem?_append_left
                (by rw [List.length_take]; exact lt_min_iff.mpr ⟨hlt, by omega⟩)]
              rw [List.getElem?_take, if_pos hlt]
              rw [List.getElem?_eq_getElem (by omega : (step - st).toNat < d.length)]
              rfl
            · simp only [retrieveScan, hget, hp]
              rw [if_neg hcov]
              simp only [playbackChunks, hget, hp]
              rw [sub_self, pySlice_zero_len]
              rw [List.getElem?_append_right
                (by rw [List.length_take, min_eq_left hlen]; omega)]
              rw [ih (st + (len : Int)) step hrest (by omega)]
              rw [List.length_take, min_eq_left hlen]
              congr 2
              omega

lemma playbackChunks_length_wf (store : List Chunk) :
    ∀ (tape : List Nat) (s0 : Int), WFtape store s0 tape = true →
    (playbackChunks store tape).length = tapeTotal store tape := by
  intro tape
  induction tape with
  | nil => intro s0 _; rfl
  | cons addr rest ih =>
    intro s0 hwf
    cases hget : store[addr]? with
    | none => simp [WFtape, hget] at hwf
    | some ch =>
      cases ch with
      | raw st d =>
        simp only [WFtape, hget, Bool.and_eq_true, beq_iff_eq] at hwf
        simp only [playbackChunks, hget, tapeTotal, List.length_append]
        rw [ih _ hwf.2]
      | ref st p len =>
        cases hp : store[p]? with
        | none => simp [WFtape, hget, hp] at hwf
        | some pch =>
          cases pch with
          | ref a b e => simp [WFtape, hget, hp] at hwf
          | raw rst d =>
            simp only [WFtape, hget, hp, Bool.and_eq_true, beq_iff_eq,
              decide_eq_true_eq, and_assoc] at hwf
            obtain ⟨hst, hrst, hlen, hrest⟩ := hwf
            subst hst
            rw [hrst] at hp
            simp only [playbackChunks, hget, hp, tapeTotal, List.length_append]
            rw [sub_self, pySlice_zero_len, ih _ hrest, List.length_take,
              min_eq_left hlen]

lemma wf_last_raw_end (store : List Chunk) :
    ∀ (tape : List Nat) (s0 : Int) (a : Nat) (st : Int) (d : List Int),
    WFtape store s0 tape = true → tape.getLast? = some a →
    store[a]? = some (Chunk.raw st d) →
    st + (d.length : Int) = s0 + (tapeTotal store tape : Int) := by
  intro tape
  induction tape with
  | nil => intro s0 a st d _ hl _; simp at hl
  | cons addr rest ih =>
    intro s0 a st d hwf hl ha
    cases rest with
    | nil =>
      simp at hl
      subst hl
      rw [WFtape, ha] at hwf
      simp only [Bool.and_eq_true, beq_iff_eq] at hwf
      simp [tapeTotal, ha, hwf.1]
    | cons b t =>
      rw [List.getLast?_cons_cons] at hl
      cases hget : store[addr]? with
      | none => simp [WFtape, hget] at hwf
      | some ch =>
        cases ch with
        | raw st2 d2 =>
          simp only [WFtape, hget, Bool.and_eq_true, beq_iff_eq] at hwf
          have := ih (s0 + (d2.length : Int)) a st d hwf.2 hl ha
          simp only [tapeTotal] at this
          simp only [tapeTotal, hget]
          push_cast at this ⊢
          omega
        | ref st2 p len =>
          cases hp : store[p]? with
          | none => simp [WFtape, hget, hp] at hwf
          | some pch =>
            cases pch with
            | ref x y z => simp [WFtape, hget, hp] at hwf
            | raw rst d2 =>
              simp only [WFtape, hget, hp, Bool.and_eq_true, beq_iff_eq,
                decide_eq_true_eq, and_assoc] at hwf
              obtain ⟨hst, hrst, hlen, hrest⟩ := hwf
              have := ih (s0 + (len : Int)) a st d hrest hl ha
              simp only [tapeTotal] at this
              simp only [tapeTotal, hget]
              push_cast at this ⊢
              omega

lemma alookup_isEmpty_false {α β : Type} [DecidableEq α] (l : List (α × β))
    (k : α) (v : β) (h : alookup l k = some v) : l.isEmpty = false := by
  cases l with
  | nil => simp [alookup] at h
  | cons a r => rfl

/-- The C8 invariant: no reference chunk points at another reference
chunk, so every reference resolves to raw data in one hop. -/
def RefsToRaw (store : List Chunk) : Prop :=
  ∀ (addr : Nat) (s : Int) (p : Nat) (l : Nat),
    store[addr]? = some (Chunk.ref s p l) →
    ∃ (st : Int) (d : List Int), store[p]? = some (Chunk.raw st d)

lemma getElem?_some_lt {α : Type} {l : List α} {n : Nat} {a : α}
    (h : l[n]? = some a) : n < l.length := by
  by_contra hge
  rw [List.getElem?_eq_none (by omega)] at h
  exact absurd h (by simp)

lemma getElem?_singleton {α : Type} (a : α) (k : Nat) :
    [a][k]? = if k = 0 then some a else none := by
  cases k with
  | zero => rfl
  | succ m => rfl

lemma refsToRaw_append_raw (store : List Chunk) (st : Int) (d : List Int)
    (h : RefsToRaw store) : RefsToRaw (store ++ [Chunk.raw st d]) := by
  unfold RefsToRaw
  intro addr s p l haddr
  by_cases hlt : addr < store.length
  · rw [List.getElem?_append_left hlt] at haddr
    obtain ⟨st2, d2, hp⟩ := h addr s p l haddr
    exact ⟨st2, d2, by rw [List.getElem?_append_left (getElem?_some_lt hp)]; exact hp⟩
  · rw [List.getElem?_append_right (by omega), getElem?_singleton] at haddr
    by_cases h0 : addr - store.length = 0 <;> simp [h0] at haddr

lemma refsToRaw_append_ref (store : List Chunk) (s0 : Int) (p0 l0 : Nat)
    (h : RefsToRaw store) (hp0 : ∃ st d, store[p0]? = some (Chunk.raw st d)) :
    RefsToRaw (store ++ [Chunk.ref s0 p0 l0]) := by
  unfold RefsToRaw
  intro addr s p l haddr
  by_cases hlt : addr < store.length
  · rw [List.getElem?_append_left hlt] at haddr
    obtain ⟨st2, d2, hp⟩ := h addr s p l haddr
    exact ⟨st2, d2, by rw [List.getElem?_append_left (getElem?_some_lt hp)]; exact hp⟩
  · rw [List.getElem?_append_right (by omega), getElem?_singleton] at haddr
    by_cases h0 : addr - store.length = 0
    · simp only [h0, if_pos, Option.some.injEq, Chunk.ref.injEq] at haddr
      obtain ⟨_, hp2, _⟩ := haddr
      obtain ⟨st2, d2, hp⟩ := hp0
      subst hp2
      exact ⟨st2, d2, by rw [List.getElem?_append_left (getElem?_some_lt hp)]; exact hp⟩
    · simp [h0] at haddr

lemma refsToRaw_set_raw (store : List Chunk) (a : Nat) (st st2 : Int)
    (d d2 : List Int) (h : RefsToRaw store)
    (ha : store[a]? = some (Chunk.raw st d)) :
    RefsToRaw (store.set a (Chunk.raw st2 d2)) := by
  unfold RefsToRaw
  intro addr s p l haddr
  rw [List.getElem?_set] at haddr
  by_cases h1 : a = addr
  · rw [if_pos h1] at haddr
    by_cases h2 : a < store.length
    · rw [if_pos h2] at haddr
      simp at haddr
    · rw [if_neg h2] at haddr
      simp at haddr
  · rw [if_neg h1] at haddr
    obtain ⟨st3, d3, hp⟩ := h addr s p l haddr
    by_cases hap : a = p
    · subst hap
      exact ⟨st2, d2, by rw [List.getElem?_set, if_pos rfl,
        if_pos (getElem?_some_lt ha)]⟩
    · exact ⟨st3, d3, by rw [List.getElem?_set, if_neg hap]; exact hp⟩

lemma refsToRaw_set_ref (store : List Chunk) (a : Nat) (s0 : Int) (p0 l0 l1 : Nat)
    (h : RefsToRaw store) (ha : store[a]? = some (Chunk.ref s0 p0 l0)) :
    RefsToRaw (store.set a (Chunk.ref s0 p0 l1)) := by
  unfold RefsToRaw
  intro addr s p l haddr
  rw [List.getElem?_set] at haddr
  by_cases h1 : a = addr
  · rw [if_pos h1] at haddr
    by_cases h2 : a < store.length
    · rw [if_pos h2] at haddr
      simp only [Option.some.injEq, Chunk.ref.injEq] at haddr
      obtain ⟨_, hp2, _⟩ := haddr
      obtain ⟨st3, d3, hp⟩ := h a s0 p0 l0 ha
      subst hp2
      have hap : a ≠ p0 := by
        intro hap
        rw [← hap, ha] at hp
        exact absurd hp (by simp)
      exact ⟨st3, d3, by rw [List.getElem?_set, if_neg hap]; exact hp⟩
    · rw [if_neg h2] at haddr
      simp at haddr
  · rw [if_neg h1] at haddr
    obtain ⟨st3, d3, hp⟩ := h addr s p l haddr
    have hap : a ≠ p := by
      intro hap
      rw [← hap, ha] at hp
      exact absurd hp (by simp)
    exact ⟨st3, d3, by rw [List.getElem?_set, if_neg hap]; exact hp⟩

lemma matchTape_raw (store : List Chunk) (step : Int) :
    ∀ (tape : List Nat) (addr : Nat), matchTape store step tape = some addr →
    ∃ st d, store[addr]? = some (Chunk.raw st d) := by
  intro tape
  induction tape with
  | nil => intro addr h; simp [matchTape] at h
  | cons a rest ih =>
    intro addr h
    cases hget : store[a]? with
    | none => simp only [matchTape, hget] at h; exact ih addr h
    | some ch =>
      cases ch with
      | ref x y z => simp only [matchTape, hget] at h; exact ih addr h
      | raw st d =>
        simp only [matchTape, hget] at h
        by_cases hc : st + (d.length : Int) > step
        · rw [if_pos hc] at h
          obtain rfl : a = addr := by injection h
          exact ⟨st, d, hget⟩
        · rw [if_neg hc] at h
          exact ih addr h

lemma matchGroup_raw (store : List Chunk) (step state : Int) :
    ∀ (g : CGroup) (addr inst : Nat), matchGroup store step state g = some (addr, inst) →
    ∃ st d, store[addr]? = some (Chunk.raw st d) := by
  intro g
  induction g with
  | nil => intro addr inst h; simp [matchGroup] at h
  | cons e rest ih =>
    intro addr inst h
    obtain ⟨i, tape⟩ := e
    cases hm : matchTape store step tape with
    | none => simp only [matchGroup, hm] at h; exact ih addr inst h
    | some a =>
      simp only [matchGroup, hm, Option.some.injEq, Prod.mk.injEq] at h
      obtain ⟨rfl, _⟩ := h
      exact matchTape_raw store step tape a hm

lemma putChunks_refsToRaw (store : List Chunk) (tape : List Nat)
    (step state : Int) (rm : Option Nat) (h : RefsToRaw store)
    (hm : ∀ a, rm = some a → ∃ st d, store[a]? = some (Chunk.raw st d)) :
    RefsToRaw (Collector.putChunks store tape step state rm).1 := by
  cases rm with
  | none =>
    cases hlast : tape.getLast? with
    | none =>
      simp only [Collector.putChunks, hlast]
      exact refsToRaw_append_raw _ _ _ h
    | some lastAddr =>
      cases hsl : store[lastAddr]? with
      | none => simp only [Collector.putChunks, hlast, hsl]; exact h
      | some ch =>
        cases ch with
        | ref s p l =>
          simp only [Collector.putChunks, hlast, hsl]
          exact refsToRaw_append_raw _ _ _ h
        | raw st2 d2 =>
          simp only [Collector.putChunks, hlast, hsl]
          exact refsToRaw_set_raw _ _ _ _ _ _ h hsl
  | some a =>
    have hma := hm a rfl
    cases hlast : tape.getLast? with
    | none =>
      simp only [Collector.putChunks, hlast]
      exact refsToRaw_append_ref _ _ _ _ h hma
    | some lastAddr =>
      cases hsl : store[lastAddr]? with
      | none => simp only [Collector.putChunks, hlast, hsl]; exact h
      | some ch =>
        cases ch with
        | ref s p l =>
          simp only [Collector.putChunks, hlast, hsl]
          by_cases hpa : p = a
          · rw [if_pos hpa]
            exact refsToRaw_set_ref _ _ _ _ _ _ h hsl
          · rw [if_neg hpa]
            exact h
        | raw st2 d2 =>
          simp only [Collector.putChunks, hlast, hsl]
          exact refsToRaw_append_ref _ _ _ _ h hma

lemma putTape_refsToRaw (store : List Chunk) (group : CGroup) (inst : Nat)
    (step state : Int) (rm : Option Nat) (h : RefsToRaw store)
    (hm : ∀ a, rm = some a → ∃ st d, store[a]? = some (Chunk.raw st d)) :
    RefsToRaw (Collector.putTape store group inst step state rm).1 :=
  putChunks_refsToRaw store _ step state rm h hm

lemma putBody_refsToRaw (c : Collector) (inst : Nat) (step state : Int)
    (key : BKey) (entries1 : List (BKey × CGroup)) (group : CGroup)
    (h : RefsToRaw c.store) :
    RefsToRaw ((Collector.putBody c inst step state key entries1 group).2).store := by
  cases hmg : matchGroup c.store step state group with
  | none =>
    simp only [Collector.putBody, hmg]
    exact putTape_refsToRaw _ _ _ _ _ _ h (fun a ha => by simp at ha)
  | some pr =>
    obtain ⟨addr, inst2⟩ := pr
    simp only [Collector.putBody, hmg]
    by_cases hdup : inst2 = inst
    · rw [if_pos hdup]
      exact h
    · rw [if_neg hdup]
      exact putTape_refsToRaw _ _ _ _ _ _ h (fun a ha => by
        obtain rfl : addr = a := Option.some.inj ha
        exact matchGroup_raw c.store step state _ addr inst2 hmg)

lemma put_refsToRaw (c : Collector) (inst : Nat) (step state : Int)
    (b : Option Nat) (h : RefsToRaw c.store) :
    RefsToRaw ((c.put inst step state b).2).store := by
  unfold Collector.put
  by_cases hopen : c.isOpen = false
  · rw [if_pos hopen]
    exact h
  · rw [if_neg hopen]
    exact putBody_refsToRaw c inst step state _ _ _ h

lemma redirectLoop_refsToRaw :
    ∀ (tape : List Nat) (store : List Chunk) (acc : List Nat),
    RefsToRaw store → RefsToRaw (redirectLoop store acc tape).1 := by
  intro tape
  induction tape with
  | nil => intro store acc h; exact h
  | cons addr rest ih =>
    intro store acc h
    cases hget : store[addr]? with
    | none => simp only [redirectLoop, hget]; exact ih _ _ h
    | some ch =>
      cases ch with
      | ref x y z => simp only [redirectLoop, hget]; exact ih _ _ h
      | raw st d =>
        simp only [redirectLoop, hget]
        exact ih _ _ (refsToRaw_append_ref _ _ _ _ h ⟨st, d, hget⟩)

lemma redirect_refsToRaw (c : Collector) (src dst : Nat) (sb : Option Nat)
    (h : RefsToRaw c.store) : RefsToRaw ((c.redirect src dst sb).2).store := by
  unfold Collector.redirect
  cases sb with
  | none => exact h
  | some n =>
    cases halk : alookup c.entries (BKey.user n) with
    | none => simp only [halk, Option.map_none']; exact h
    | some g =>
      simp only [halk, Option.map_some']
      by_cases hemp : g.isEmpty
      · simp only [hemp, if_true]
        exact h
      · simp only [hemp, if_false]
        cases hsrc : alookup g src with
        | none => exact h
        | some srcTape => exact redirectLoop_refsToRaw srcTape c.store [] h

lemma applyOp_refsToRaw (c : Collector) (op : COp) (h : RefsToRaw c.store) :
    RefsToRaw ((c.applyOp op).store) := by
  cases op with
  | putOp i st sv b => exact put_refsToRaw c i st sv b h
  | redirectOp s d b => exact redirect_refsToRaw c s d b h

lemma runOps_refsToRaw (ops : List COp) : ∀ c : Collector, RefsToRaw c.store →
    RefsToRaw ((ops.foldl Collector.applyOp c).store) := by
  induction ops with
  | nil => intro c h; exact h
  | cons op rest ih => intro c h; exact ih _ (applyOp_refsToRaw c op h)

lemma cumScan_all_le (pick : ℚ) :
    ∀ (row : List ℚ), (∀ v ∈ row, v ≤ pick) →
    cumScan row pick =
      Except.error "ValueError: pick is higher than the last element of accumulated" := by
  intro row
  induction row with
  | nil => intro _; rfl
  | cons v rest ih =>
    intro hall
    have hv : ¬ pick < v := not_lt.mpr (hall v (by simp))
    simp only [cumScan, if_neg hv, ih (fun w hw => hall w (by simp [hw]))]

lemma c7AllLe : ∀ v ∈ [(1/2 : ℚ), 1], v ≤ 1 := by
  intro v hv
  rcases List.mem_cons.mp hv with rfl | hv2
  · norm_num
  · rcases List.mem_singleton.mp hv2 with rfl
    norm_num

lemma c9Trans :
    Stochastic.transition
      { matrixCumsum := [[1]], initialState := InitialSt.fixed 0,
        initialStateCumsum := [] } 0 ((fun _ : Nat => (0 : ℚ)) 0) =
      Except.ok 0 := by
  have h : (0 : ℚ) < 1 := by norm_num
  simp [Stochastic.transition, pyGet, cumScan, h]
  rfl

lemma c10Trans :
    Stochastic.transition
      { matrixCumsum := [[1/2, 1]], initialState := InitialSt.fixed 0,
        initialStateCumsum := [] } 0 ((fun _ : Nat => (3/5 : ℚ)) 0) =
      Except.ok 1 := by
  have h1 : ¬ (3/5 : ℚ) < (2 : ℚ)⁻¹ := by norm_num
  have h2 : (3/5 : ℚ) < 1 := by norm_num
  simp [Stochastic.transition, pyGet, cumScan, h1, h2]
  rfl

/-- C1: the claim fails in the code and the code contradicts its own
documentation (the `_match` docstring promises a chunk "containing
specific value on correct step", and `put` promises that only duplicates
are rejected). After instance 0 records state 5 at step 0, a `put` by
instance 1 of the DIFFERENT state 7 at step 0 is stored as a reference
segment pointing at the raw chunk of instance 0, because `_match` never
compares the recorded value against the incoming state; reading instance
1 back at step 0 yields 5, not the 7 that was put. -/
theorem spec_c1_put_reference_without_state_match :
    (Collector.runOps [COp.putOp 0 0 5 none, COp.putOp 1 0 7 none]).store =
      [Chunk.raw 0 [5], Chunk.ref 0 0 1] ∧
    (Collector.runOps [COp.putOp 0 0 5 none, COp.putOp 1 0 7 none]).entries =
      [(BKey.empt, [(0, [0]), (1, [1])])] ∧
    (Collector.runOps [COp.putOp 0 0 5 none, COp.putOp 1 0 7 none]).retrieve
        none 1 0 = Except.ok (some 5) ∧
    (5 : Int) ≠ 7 :=
  ⟨rfl, rfl, rfl, by decide⟩

/-- C2 counterexample: a reachable collector state (instance 0 puts
states 1,2 at steps 0,1; instance 1 puts state 7 at step 0 — stored as a
reference — and state 9 at step 2) where `length` of instance 1 is 3 and
step 2 is in range, yet `retrieve` returns 9 at step 2 while the
playback sequence [1, 9] has no element at position 2: the claimed
equality between `retrieve` and positional playback lookup fails. -/
theorem spec_c2_counterexample :
    (Collector.runOps [COp.putOp 0 0 1 none, COp.putOp 0 1 2 none,
        COp.putOp 1 0 7 none, COp.putOp 1 2 9 none]).length none 1 =
      Except.ok (some 3) ∧
    (0 : Int) ≤ 2 ∧ (2 : Int) < 3 ∧
    (Collector.runOps [COp.putOp 0 0 1 none, COp.putOp 0 1 2 none,
        COp.putOp 1 0 7 none, COp.putOp 1 2 9 none]).retrieve none 1 2 =
      Except.ok (some 9) ∧
    (Collector.runOps [COp.putOp 0 0 1 none, COp.putOp 0 1 2 none,
        COp.putOp 1 0 7 none, COp.putOp 1 2 9 none]).playback none 1 = [1, 9] ∧
    ((Collector.runOps [COp.putOp 0 0 1 none, COp.putOp 0 1 2 none,
        COp.putOp 1 0 7 none, COp.putOp 1 2 9 none]).playback none 1)[(2 : Int).toNat]? =
      none :=
  ⟨rfl, by decide, by decide, rfl, rfl, rfl⟩

/-- C2 (amended): for an instance whose recorded tape is well formed —
contiguous chunks starting at step 0, every reference aligned with its
target raw chunk and covering no more than the target holds — and whose
`length` returns a number n, `retrieve(instance, s)` equals the s-th
element of the playback sequence for every step s ≥ 0 (the positional
lookup is `none` exactly for s ≥ n, so `retrieve` returns the None
sentinel there). -/
theorem spec_c2_retrieve_matches_playback (c : Collector) (instB : Option Nat)
    (inst : Nat) (group : CGroup) (tape : List Nat) (n step : Int)
    (hg : alookup c.entries (normKey instB) = some group)
    (ht : alookup group inst = some tape)
    (hwf : WFtape c.store 0 tape = true)
    (hlen : c.length instB inst = Except.ok (some n))
    (hstep : 0 ≤ step) :
    c.retrieve instB inst step =
      Except.ok ((c.playback instB inst)[step.toNat]?) ∧
    ((c.playback instB inst).length : Int) = n ∧
    (n ≤ step → c.retrieve instB inst step = Except.ok none) := by
  have hne := alookup_isEmpty_false _ _ _ ht
  simp only [Collector.length, hg, hne, Bool.false_eq_true, if_false, ht] at hlen
  cases hl : tape.getLast? with
  | none => simp only [hl] at hlen; simp at hlen
  | some lastAddr =>
    simp only [hl] at hlen
    cases hsl : c.store[lastAddr]? with
    | none => simp only [hsl] at hlen; simp at hlen
    | some ch =>
      cases ch with
      | ref a b e => simp only [hsl] at hlen; simp at hlen
      | raw st d =>
        simp only [hsl, Except.ok.injEq, Option.some.injEq] at hlen
        have htne : tape.isEmpty = false := by
          cases tape with
          | nil => simp at hl
          | cons x xs => rfl
        have hend := wf_last_raw_end c.store tape 0 lastAddr st d hwf hl hsl
        have hplen := playbackChunks_length_wf c.store tape 0 hwf
        have hret : c.retrieve instB inst step = retrieveScan c.store step tape := by
          simp only [Collector.retrieve, hg, hne, Bool.false_eq_true, if_false, ht]
        have hpb : c.playback instB inst = playbackChunks c.store tape := by
          simp only [Collector.playback, hg, hne, Bool.false_eq_true, if_false,
            ht, htne]
        have hmain := retrieveScan_wf c.store tape 0 step hwf hstep
        rw [sub_zero] at hmain
        refine ⟨by rw [hret, hpb]; exact hmain, ?_, ?_⟩
        · rw [hpb, hplen]
          omega
        · intro hge
          rw [hret, hmain,
            List.getElem?_eq_none (by rw [hplen]; omega)]

theorem spec_c2_witness :
    WFtape (Collector.runOps [COp.putOp 0 0 5 none, COp.putOp 0 1 6 none]).store
        0 [0] = true ∧
    ((Collector.runOps [COp.putOp 0 0 5 none, COp.putOp 0 1 6 none]).retrieve
          none 0 1 =
        Except.ok (((Collector.runOps [COp.putOp 0 0 5 none,
          COp.putOp 0 1 6 none]).playback none 0)[(1 : Int).toNat]?) ∧
      (((Collector.runOps [COp.putOp 0 0 5 none,
          COp.putOp 0 1 6 none]).playback none 0).length : Int) = 2 ∧
      ((2 : Int) ≤ 1 →
        (Collector.runOps [COp.putOp 0 0 5 none, COp.putOp 0 1 6 none]).retrieve
          none 0 1 = Except.ok none)) :=
  ⟨rfl, spec_c2_retrieve_matches_playback _ none 0 [(0, [0])] [0] 2 1
    rfl rfl rfl rfl (by decide)⟩

/-- C3: the claim fails because the code is broken at its own stated
intent ("branched instances preserve collectors, thus emitting without
binding"): `Instance.branch` calls `c._redirect(self, new, backend)` on
every open bound collector, but stat.py defines `redirect(src, dst)` and
no attribute `_redirect`, so branching an instance subscribed to one
open collector raises AttributeError instead of completing. -/
theorem spec_c3_branch_raises_attribute_error :
    InstanceObj.branch
      { ident := 0, stepCount := 3, curState := some 1,
        forced := ForcedSt.noneF, collectorsOpen := [true] } 1 none =
      Except.error "AttributeError: Collector object has no attribute _redirect" :=
  rfl

/-- C4: evaluation at the failing input: `Description.variant` assigns
the freshly generated id to the RECEIVER (`self._id = Description._gen_id()`
in the source), so after `variant` with no overrides the copy keeps the
old id 7 while the receiver's identity has changed to 12 — the receiver
is not left unchanged as the claim states. -/
theorem spec_c4_variant_mutates_receiver :
    Description.variant { ident := 7, shp := some (2, 2) } 12 [] =
      Except.ok ({ ident := 7, shp := some (2, 2) },
        { ident := 12, shp := some (2, 2) }, 13) ∧
    (12 : Nat) ≠ 7 :=
  ⟨rfl, by decide⟩

/-- C5: evaluation at the failing input: instance 1 has recorded one
step (its tape is a single reference segment of total length 1), yet
`length` returns the None sentinel because the final match in the source
repeats the pattern ChunkType.RAW in both arms, so a tape ending in a
reference chunk falls through every arm. -/
theorem spec_c5_length_sentinel_on_reference_tail :
    alookup ((alookup (Collector.runOps [COp.putOp 0 0 5 none,
        COp.putOp 1 0 7 none]).entries BKey.empt).getD []) 1 = some [1] ∧
    tapeTotal (Collector.runOps [COp.putOp 0 0 5 none,
        COp.putOp 1 0 7 none]).store [1] = 1 ∧
    (Collector.runOps [COp.putOp 0 0 5 none, COp.putOp 1 0 7 none]).length
        none 1 = Except.ok none :=
  ⟨rfl, rfl, rfl⟩

/-- C6: evaluation at the failing input: with one recorded instance in
the sentinel group, querying `length` or `retrieve` for an instance that
never put raises TypeError — the guard after the tape lookup re-tests
the group variable instead of the tape, so the missing tape (None) flows
into `tape[-1]` and `for chunk in tape`. -/
theorem spec_c6_queries_raise_on_missing_tape :
    (Collector.runOps [COp.putOp 0 0 5 none]).length none 1 =
      Except.error "TypeError" ∧
    (Collector.runOps [COp.putOp 0 0 5 none]).retrieve none 1 0 =
      Except.error "TypeError" :=
  ⟨rfl, rfl⟩

/-- C7 counterexample: with cumulative row [1/2, 1] and a draw equal to
the last entry, `_transition` raises ValueError instead of clamping to
the last valid state index 1 as the claim states. -/
theorem spec_c7_counterexample :
    Stochastic.transition
      { matrixCumsum := [[1/2, 1]], initialState := InitialSt.fixed 0,
        initialStateCumsum := [] } 0 1 =
      Except.error "ValueError: pick is higher than the last element of accumulated" ∧
    Stochastic.transition
      { matrixCumsum := [[1/2, 1]], initialState := InitialSt.fixed 0,
        initialStateCumsum := [] } 0 1 ≠ Except.ok 1 := by
  have hall := c7AllLe
  have hrow : pyGet ([[1/2, 1]] : List (List ℚ)) 0 =
      Except.ok [1/2, 1] := rfl
  have hmain : Stochastic.transition
      { matrixCumsum := [[1/2, 1]], initialState := InitialSt.fixed 0,
        initialStateCumsum := [] } 0 1 =
      Except.error "ValueError: pick is higher than the last element of accumulated" := by
    simp only [Stochastic.transition, hrow]
    rw [cumScan_all_le 1 [1/2, 1] hall]
    rfl
  exact ⟨hmain, by rw [hmain]; simp⟩

/-- C7 (amended): when the draw is at least every entry of the relevant
cumulative sum (in particular when it equals or exceeds the last entry
of a monotone cumulative sum), `_transition` — and `_initial` in the
probability-vector case — raise ValueError: sampling is NOT total at the
floating boundary, there is no clamping. -/
theorem spec_c7_boundary_raises (m : Stochastic) (state : Int) (row : List ℚ)
    (pick : ℚ) (hrow : pyGet m.matrixCumsum state = Except.ok row)
    (hge : ∀ v ∈ row, v ≤ pick) (hvec : m.initialState = InitialSt.vec)
    (hge2 : ∀ v ∈ m.initialStateCumsum, v ≤ pick) :
    m.transition state pick =
      Except.error "ValueError: pick is higher than the last element of accumulated" ∧
    m.initial pick =
      Except.error "ValueError: pick is higher than the last element of accumulated" := by
  constructor
  · simp only [Stochastic.transition, hrow]
    rw [cumScan_all_le pick row hge]
    rfl
  · simp only [Stochastic.initial, hvec]
    rw [cumScan_all_le pick _ hge2]
    rfl

theorem spec_c7_witness :
    pyGet ([[1/2, 1]] : List (List ℚ)) 0 = Except.ok [1/2, 1] ∧
    (∀ v ∈ [(1/2 : ℚ), 1], v ≤ 1) ∧
    (Stochastic.transition
        { matrixCumsum := [[1/2, 1]], initialState := InitialSt.vec,
          initialStateCumsum := [1/2, 1] } 0 1 =
      Except.error "ValueError: pick is higher than the last element of accumulated" ∧
    Stochastic.initial
        { matrixCumsum := [[1/2, 1]], initialState := InitialSt.vec,
          initialStateCumsum := [1/2, 1] } 1 =
      Except.error "ValueError: pick is higher than the last element of accumulated") :=
  ⟨rfl, c7AllLe, spec_c7_boundary_raises _ 0 [1/2, 1] 1 rfl c7AllLe rfl c7AllLe⟩

/-- C8: in every collector state reachable by any sequence of put and
redirect operations from a fresh collector, no reference chunk points at
another reference chunk: every reference resolves to a raw chunk in one
hop. -/
theorem spec_c8_refs_resolve_to_raw (ops : List COp) :
    RefsToRaw (Collector.runOps ops).store :=
  runOps_refsToRaw ops Collector.empty
    (fun addr s p l hx => by simp [Collector.empty] at hx)

theorem spec_c8_witness :
    (Collector.runOps [COp.putOp 2 0 5 none, COp.putOp 3 0 5 none]).store[1]? =
      some (Chunk.ref 0 0 1) ∧
    ∃ (st : Int) (d : List Int),
      (Collector.runOps [COp.putOp 2 0 5 none, COp.putOp 3 0 5 none]).store[0]? =
        some (Chunk.raw st d) :=
  ⟨rfl, spec_c8_refs_resolve_to_raw
    [COp.putOp 2 0 5 none, COp.putOp 3 0 5 none] 1 0 0 1 rfl⟩

/-- C9: for an Endless instance past its first step with a pending
forced integer state f, advancing returns f and clears the forced state,
but one draw of the transition rng is consumed anyway (the natural
sample v is computed and discarded), so the rng position afterwards
equals the position after an unforced advance from the same state. -/
theorem spec_c9_forced_state_still_consumes_draw (m : Stochastic)
    (draws : Nat → ℚ) (idr : ℚ) (s : EndlessState) (f st v : Int)
    (hstep : s.step ≠ 0) (hst : s.state = some st)
    (hforced : s.forced = ForcedSt.fint f)
    (htrans : m.transition st (draws s.rngIdx) = Except.ok v) :
    Endless.next m draws idr s =
      Except.ok (some f,
        { s with
            state := some f, forced := ForcedSt.noneF, step := s.step + 1,
            rngIdx := s.rngIdx + 1 }) ∧
    Endless.next m draws idr { s with forced := ForcedSt.noneF } =
      Except.ok (some v,
        { s with
            state := some v, forced := ForcedSt.noneF, step := s.step + 1,
            rngIdx := s.rngIdx + 1 }) := by
  constructor
  · simp only [Endless.next, if_neg hstep, hst, htrans, Instance.nextState,
      hforced]
  · simp only [Endless.next, if_neg hstep, hst, htrans, Instance.nextState]

theorem spec_c9_witness :
    Stochastic.transition
      { matrixCumsum := [[1]], initialState := InitialSt.fixed 0,
        initialStateCumsum := [] } 0 0 = Except.ok 0 ∧
    (Endless.next
        { matrixCumsum := [[1]], initialState := InitialSt.fixed 0,
          initialStateCumsum := [] } (fun _ => 0) 0
        { state := some 0, forced := ForcedSt.fint 5, step := 1, rngIdx := 0 } =
      Except.ok (some 5,
        { state := some 5, forced := ForcedSt.noneF, step := 2, rngIdx := 1 }) ∧
    Endless.next
        { matrixCumsum := [[1]], initialState := InitialSt.fixed 0,
          initialStateCumsum := [] } (fun _ => 0) 0
        { state := some 0, forced := ForcedSt.noneF, step := 1, rngIdx := 0 } =
      Except.ok (some 0,
        { state := some 0, forced := ForcedSt.noneF, step := 2, rngIdx := 1 })) :=
  ⟨c9Trans, spec_c9_forced_state_still_consumes_draw _ _ _ _ 5 0 0
    (by decide) rfl rfl c9Trans⟩

/-- C10: when the forced sequence queued through the state setter yields
the value 0, that forced value is not used: `if not value` treats 0 like
exhaustion, so the forced generator is discarded together with all of
its remaining values and the naturally sampled state v is returned for
that step. -/
theorem spec_c10_zero_discards_forced_sequence (m : Stochastic)
    (draws : Nat → ℚ) (idr : ℚ) (s : EndlessState) (rest : List Int)
    (st v : Int) (hstep : s.step ≠ 0) (hst : s.state = some st)
    (hforced : s.forced = ForcedSt.fgen (0 :: rest))
    (htrans : m.transition st (draws s.rngIdx) = Except.ok v) :
    Endless.next m draws idr s =
      Except.ok (some v,
        { s with
            state := some v, forced := ForcedSt.noneF, step := s.step + 1,
            rngIdx := s.rngIdx + 1 }) := by
  simp [Endless.next, if_neg hstep, hst, htrans, Instance.nextState, hforced]

theorem spec_c10_witness :
    Stochastic.transition
      { matrixCumsum := [[1/2, 1]], initialState := InitialSt.fixed 0,
        initialStateCumsum := [] } 0 (3/5) = Except.ok 1 ∧
    Endless.next
      { matrixCumsum := [[1/2, 1]], initialState := InitialSt.fixed 0,
        initialStateCumsum := [] } (fun _ => 3/5) 0
      { state := some 0, forced := ForcedSt.fgen [0, 7], step := 1, rngIdx := 0 } =
      Except.ok (some 1,
        { state := some 1, forced := ForcedSt.noneF, step := 2, rngIdx := 1 }) :=
  ⟨c10Trans, spec_c10_zero_discards_forced_sequence _ _ _ _ [7] 0 1
    (by decide) rfl rfl c10Trans⟩
